import Mathlib

/-
Verification of the cruster image-corruption pipeline (src/main.rs).

The development shallowly embeds the Rust source: machine integers are
modelled as Nat (unsigned) or Int (signed) with explicit reductions
modulo 2^32 or 2^64 where the source uses fixed-width wraparound
arithmetic; Rust operations that can panic (gen_ratio with numerator
above the denominator, the remainder by zero and the final unwrap in
modified_pixel) are modelled in Option, with none standing for a panic.
The RNG is modelled as an explicit stream of raw draws together with a
cursor; every sampling site consumes exactly one stream element, which
mirrors the way the Rust code threads one ThreadRng through all stages.
Images are total functions from coordinates to RGBA values; the image
crate buffer writes are function updates.
-/

namespace Cruster

/-- Modulus of unsigned 32-bit arithmetic. -/
def U32 : Nat := 2 ^ 32

/-- Modulus of 64-bit arithmetic. -/
def U64 : Nat := 2 ^ 64

/-- Reinterpretation of a raw 64-bit word as a twos-complement signed
value, the way Rust reads an i64 out of the raw bits produced by the
generator. -/
def toSigned64 (n : Nat) : Int :=
  if n % U64 < 2 ^ 63 then ((n % U64 : Nat) : Int)
  else ((n % U64 : Nat) : Int) - (U64 : Int)

/-- Wraparound reduction of an integer into the i64 range, used to model
Wrapping i64 addition and multiplication. -/
def wrapI64 (z : Int) : Int := toSigned64 (z % (U64 : Int)).toNat

/-- Explicit model of the pseudo-random generator: a stream of raw draws
and a cursor.  Each sampling site consumes one stream element. -/
structure RNG where
  draws : Nat → Nat
  idx : Nat

/-- Consumption of one raw draw, advancing the cursor. -/
def RNG.next (g : RNG) : Nat × RNG := (g.draws g.idx, ⟨g.draws, g.idx + 1⟩)

/-- One uniform u32 sample (rng.sample with the Standard distribution at
type u32): the raw draw reduced modulo 2^32. -/
def sample_u32 (g : RNG) : Nat × RNG :=
  let p := g.next
  (p.1 % U32, p.2)

/-- One uniform i64 sample: the raw draw reinterpreted as signed 64-bit. -/
def sample_i64 (g : RNG) : Int × RNG :=
  let p := g.next
  (toSigned64 p.1, p.2)

/-- Monomorphisation of the generic offset function (src/main.rs lines
85-94) at T = S = i64: draw one i64 and multiply by the magnitude with
Wrapping i64 semantics. -/
def offset_i64 (g : RNG) (magnitude : Int) : Int × RNG :=
  let p := sample_i64 g
  (wrapI64 (p.1 * magnitude), p.2)

/-- Monomorphisation of the generic offset function at T = S = u32:
draw one u32 and multiply by the magnitude with Wrapping u32 semantics. -/
def offset_u32 (g : RNG) (magnitude : Nat) : Nat × RNG :=
  let p := sample_u32 g
  ((p.1 * magnitude) % U32, p.2)

/-- Model of rng.gen_ratio(num, den) from the rand crate: panics (none)
when the numerator exceeds the denominator; a ratio of num = den is
always true; otherwise the Bernoulli outcome is a function of the one
raw draw the sample consumes.  The exact boolean decision function of
the draw is internal to the rand crate; the model fixes one concrete
decision function, which is faithful for every property proved below
(none of them depends on the distribution of outcomes). -/
def gen_ratio (g : RNG) (num den : Nat) : Option (Bool × RNG) :=
  if den < num then none
  else
    let p := g.next
    if num = den then some (true, p.2)
    else some (decide (p.1 % den < num), p.2)

/-- Translation of modified_pixel (src/main.rs lines 77-82):
Wrapping u32 addition of the coordinate and the offset, zero-extension
of the wrapped sum to i64, truncated remainder by the bound (a panic,
modelled as none, when the bound is zero), and a final checked
conversion back to u32 (a panic, modelled as none, when the remainder
is out of u32 range). -/
def modified_pixel (coord offset_coord bounds_coord : Nat) : Option Nat :=
  if bounds_coord = 0 then none
  else
    let s : Int := (((coord + offset_coord) % U32 : Nat) : Int)
    let r : Int := Int.tmod s (bounds_coord : Int)
    if 0 ≤ r ∧ r < (U32 : Int) then some r.toNat else none

/-- Total closed form of modified_pixel for a positive bound (the value
it returns whenever it does not panic). -/
def mpT (coord offset_coord bounds_coord : Nat) : Nat :=
  ((coord + offset_coord) % U32) % bounds_coord

/-- Translation of offset_x.try_into().unwrap_or(u32 MAX) from
src/main.rs lines 147 and 152: a checked i64-to-u32 conversion whose
failure is replaced by the largest u32 value. -/
def i64_to_u32_sat (z : Int) : Nat :=
  if 0 ≤ z ∧ z < (U32 : Int) then z.toNat else U32 - 1

/-- Translation of brighten_pixels (src/main.rs lines 96-100): Wrapping
u8 evaluation of pixel - pixel * addition / 255 + addition. -/
def brighten_pixels (pixel brighteness_addition : Nat) : Nat :=
  ((pixel + 256 - (pixel * brighteness_addition % 256) / 255) % 256
      + brighteness_addition) % 256

/-- Wraparound 8-bit multiplication, as the spec words describe it. -/
def u8_mul (a b : Nat) : Nat := a * b % 256

/-- Truncating 8-bit division, as the spec words describe it. -/
def u8_div (a b : Nat) : Nat := a / b % 256

/-- Wraparound 8-bit subtraction, as the spec words describe it. -/
def u8_sub (a b : Nat) : Nat := (a + 256 - b % 256) % 256

/-- Wraparound 8-bit addition, as the spec words describe it. -/
def u8_add (a b : Nat) : Nat := (a + b) % 256

/-- Modelled from the spec: the brightening formula of section 4.3,
channel_value - (channel_value * addition / 255) + addition with every
operation a wraparound 8-bit operation and a truncating division,
written from the spec words to be compared with brighten_pixels. -/
def brighten_formula (channel_value addition : Nat) : Nat :=
  u8_add (u8_sub channel_value (u8_div (u8_mul channel_value addition) 255)) addition

/-- RGBA pixel; channels are 8-bit values. -/
structure Rgba where
  r : Nat
  g : Nat
  b : Nat
  a : Nat
deriving DecidableEq

/-- Validity of a pixel: every channel fits in 8 bits. -/
def Rgba.Valid (p : Rgba) : Prop :=
  p.r < 256 ∧ p.g < 256 ∧ p.b < 256 ∧ p.a < 256

/-- Image as a total function from coordinates to pixels. -/
def Image : Type := Nat → Nat → Rgba

/-- Validity of an image: every pixel is valid. -/
def Image.Valid (img : Image) : Prop := ∀ x y, (img x y).Valid

/-- Model of RgbaImage.put_pixel: a pointwise function update. -/
def put_pixel (buf : Image) (x y : Nat) (p : Rgba) : Image :=
  fun z w => if z = x ∧ w = y then p else buf z w

/-- Translation of the Bounds structure (src/main.rs lines 62-67). -/
structure Bounds where
  x_min : Nat
  y_min : Nat
  x_max : Nat
  y_max : Nat

/-- Translation of the Corrupter structure (src/main.rs lines 70-74). -/
structure Corrupter where
  bounds : Bounds
  img : Image
  buffer : Image

/-- Model of Corrupter::new on an already decoded image of the given
dimensions: bounds (0, w, 0, h) and a zero-filled output buffer. -/
def Corrupter.new (img : Image) (w h : Nat) : Corrupter :=
  ⟨⟨0, 0, w, h⟩, img, fun _ _ => ⟨0, 0, 0, 0⟩⟩

/-- Configuration record (src/main.rs lines 13-58).  The two f64 fields
of the source are reduced to what the core observes of them: the field
lag is never read by any stage and is dropped; of stride_magnitude only
the saturating truncation to u32 (the cast at line 135) is observable,
so the field here holds that already truncated u32 value. -/
structure CLI where
  magnitude : Int
  block_height : Nat
  block_offset : Nat
  stride_magnitude : Nat
  lr : Nat
  lg : Nat
  lb : Nat
  std_offset : Nat
  brighteness_addition : Nat
  mean_abberation : Nat
  std_abberation : Nat

/-- Raster scan order of iproduct over the two coordinate ranges
(src/main.rs lines 126-129): x outer, y inner, both ascending. -/
def coords (b : Bounds) : List (Nat × Nat) :=
  (List.range' b.x_min (b.x_max - b.x_min)).flatMap
    (fun x => (List.range' b.y_min (b.y_max - b.y_min)).map (fun y => (x, y)))

/-- Loop state of dissolve_block: the three locals of lines 122-124,
the output buffer and the generator.  The stride local is an f64 in the
source, initialised to 0.0 and only ever set to cfg.stride_magnitude;
only its truncation to u32 is observable, so the state holds that
truncated value (0.0 truncates to 0). -/
structure S1State where
  line_offset : Int
  stride : Nat
  yset : Nat
  buffer : Image
  rng : RNG

/-- Body of the per-pixel loop of dissolve_block (src/main.rs lines
130-156).  The Bernoulli trial may panic (none); on success the block
offset is redrawn; the two displacement draws follow; the conversions
to u32 saturate to u32 MAX; the source pixel at the remapped coordinate
is written at (x, y). -/
def dissolve_step (img : Image) (bnd : Bounds) (cfg : CLI)
    (st : S1State) (xy : Nat × Nat) : Option S1State := do
  let (hit, g1) ← gen_ratio st.rng cfg.block_height bnd.x_max
  let (lo, stride, yset, g2) :=
    if hit then
      let p := offset_i64 g1 (cfg.block_offset : Int)
      (p.1, cfg.stride_magnitude, xy.2, p.2)
    else (st.line_offset, st.stride, st.yset, g1)
  let stride_offset : Int := ((stride * ((xy.2 + U32 - yset) % U32)) % U32 : Nat)
  let pmx := offset_i64 g2 cfg.magnitude
  let offset_x : Int := wrapI64 (wrapI64 (pmx.1 + lo) + stride_offset)
  let pmy := offset_i64 pmx.2 cfg.magnitude
  let sx ← modified_pixel xy.1 (i64_to_u32_sat offset_x) bnd.x_max
  let sy ← modified_pixel xy.2 (i64_to_u32_sat pmy.1) bnd.y_max
  some ⟨lo, stride, yset, put_pixel st.buffer xy.1 xy.2 (img sx sy), pmy.2⟩

/-- Translation of Corrupter::dissolve_block (src/main.rs lines
121-159): fold of the per-pixel body over the raster scan, starting
from zeroed locals. -/
def dissolve_block (c : Corrupter) (g : RNG) (cfg : CLI) :
    Option (Corrupter × RNG) := do
  let st ← (coords c.bounds).foldlM (dissolve_step c.img c.bounds cfg)
    ⟨0, 0, 0, c.buffer, g⟩
  some ({ c with buffer := st.buffer }, st.rng)

/-- Body of the per-pixel loop of random_brightening (src/main.rs lines
164-206): per pixel, the three lags and the shared horizontal offset
are redrawn (four u32 draws, in the order lr, lg, lb, offset_x); red
and alpha come from the source pixel at the lagged red column.  The
source then binds let (b, g) = (green sample at (x, lg), blue sample at
(x + lb, offset_x)) and writes Rgba([r, g, b, a]), so the output green
channel receives the brightened BLUE sample taken at (x + lb, offset_x)
and the output blue channel receives the brightened GREEN sample taken
at (x, lg).  The u32 additions lr + draw and x + lb are modelled with
release-mode wraparound semantics. -/
def brightening_step (img : Image) (bnd : Bounds) (cfg : CLI)
    (st : Image × RNG) (xy : Nat × Nat) : Option (Image × RNG) := do
  let plr := offset_u32 st.2 cfg.lr
  let lr := (cfg.lr + plr.1) % U32
  let plg := offset_u32 plr.2 cfg.lg
  let lg := (cfg.lg + plg.1) % U32
  let plb := offset_u32 plg.2 cfg.lb
  let lb := (cfg.lb + plb.1) % U32
  let pox := offset_u32 plb.2 cfg.std_offset
  let offset_x := pox.1
  let rx ← modified_pixel ((xy.1 + U32 - lr) % U32) offset_x bnd.x_max
  let ry ← modified_pixel 0 xy.2 bnd.y_max
  let pRA := img rx ry
  let gx ← modified_pixel xy.1 lg bnd.x_max
  let bx ← modified_pixel ((xy.1 + lb) % U32) offset_x bnd.x_max
  let out : Rgba :=
    ⟨brighten_pixels pRA.r cfg.brighteness_addition,
     brighten_pixels (img bx ry).b cfg.brighteness_addition,
     brighten_pixels (img gx ry).g cfg.brighteness_addition,
     brighten_pixels pRA.a cfg.brighteness_addition⟩
  some (put_pixel st.1 xy.1 xy.2 out, pox.2)

/-- Translation of Corrupter::random_brightening (src/main.rs lines
160-209). -/
def random_brightening (c : Corrupter) (g : RNG) (cfg : CLI) :
    Option (Corrupter × RNG) := do
  let st ← (coords c.bounds).foldlM (brightening_step c.img c.bounds cfg)
    (c.buffer, g)
  some ({ c with buffer := st.1 }, st.2)

/-- Body of the per-pixel loop of chromatic_abberations (src/main.rs
lines 215-251): the loop consumes no draws; red and alpha are sampled
at the shifted column.  The source binds let (b, g) = (green sample at
column x mod x_max, blue sample at the shifted column) and writes
Rgba([r, g, b, a]), so the output green channel receives the brightened
BLUE channel of the shifted column and the output blue channel receives
the brightened GREEN channel of the column x mod x_max. -/
def chromatic_step (img : Image) (bnd : Bounds) (cfg : CLI) (offset_x : Nat)
    (buf : Image) (xy : Nat × Nat) : Option Image := do
  let rx ← modified_pixel xy.1 offset_x bnd.x_max
  let ry ← modified_pixel 0 xy.2 bnd.y_max
  let pRA := img rx ry
  let gx ← modified_pixel 0 xy.1 bnd.x_max
  let bx ← modified_pixel xy.1 offset_x bnd.x_max
  let out : Rgba :=
    ⟨brighten_pixels pRA.r cfg.brighteness_addition,
     brighten_pixels (img bx ry).b cfg.brighteness_addition,
     brighten_pixels (img gx ry).g cfg.brighteness_addition,
     brighten_pixels pRA.a cfg.brighteness_addition⟩
  some (put_pixel buf xy.1 xy.2 out)

/-- Translation of Corrupter::chromatic_abberations (src/main.rs lines
210-253): one draw before the loop fixes offset_x for the whole stage,
then the per-pixel fold runs without touching the generator. -/
def chromatic_abberations (c : Corrupter) (g : RNG) (cfg : CLI) :
    Option (Corrupter × RNG) := do
  let pox := offset_u32 g cfg.std_abberation
  let offset_x := (cfg.mean_abberation + pox.1) % U32
  let buf ← (coords c.bounds).foldlM
    (chromatic_step c.img c.bounds cfg offset_x) c.buffer
  some ({ c with buffer := buf }, pox.2)

/-- Sequencing of the three stages as in main (src/main.rs lines
264-267). -/
def pipeline3 (c : Corrupter) (g : RNG) (cfg : CLI) :
    Option (Corrupter × RNG) := do
  let s1 ← dissolve_block c g cfg
  let s2 ← random_brightening s1.1 s1.2 cfg
  chromatic_abberations s2.1 s2.2 cfg

/-- Whole pipeline from a decoded image, as in main: Corrupter::new
then the three stages. -/
def pipeline (img : Image) (w h : Nat) (g : RNG) (cfg : CLI) :
    Option (Corrupter × RNG) :=
  pipeline3 (Corrupter.new img w h) g cfg

/-! ## Basic lemmas about the leaf functions -/

/-- modified_pixel never panics on a positive bound and computes the
wrapped sum reduced modulo the bound. -/
theorem modified_pixel_pos (coord offset_coord b : Nat) (hb : 0 < b) :
    modified_pixel coord offset_coord b = some (mpT coord offset_coord b) := by
  have hleU : (coord + offset_coord) % U32 % b < U32 :=
    lt_of_le_of_lt (Nat.mod_le _ _) (Nat.mod_lt _ (by norm_num [U32]))
  unfold modified_pixel
  rw [if_neg (by omega)]
  show (if 0 ≤ (((coord + offset_coord) % U32 % b : Nat) : Int)
          ∧ (((coord + offset_coord) % U32 % b : Nat) : Int) < ((U32 : Nat) : Int)
        then some ((((coord + offset_coord) % U32 % b : Nat) : Int).toNat) else none)
      = some (mpT coord offset_coord b)
  rw [if_pos ⟨Int.natCast_nonneg _, by exact_mod_cast hleU⟩, Int.toNat_natCast]
  rfl

/-- mpT keeps a coordinate already inside the bound fixed when the
offset is zero and the bound fits in u32. -/
theorem mpT_self (x b : Nat) (hx : x < b) (hb : b ≤ U32) :
    mpT x 0 b = x := by
  unfold mpT
  rw [Nat.add_zero, Nat.mod_eq_of_lt (lt_of_lt_of_le hx hb), Nat.mod_eq_of_lt hx]

/-- mpT with a zero first coordinate reduces the offset modulo the
bound. -/
theorem mpT_zero (y b : Nat) (hy : y < b) (hb : b ≤ U32) :
    mpT 0 y b = y := by
  unfold mpT
  rw [Nat.zero_add, Nat.mod_eq_of_lt (lt_of_lt_of_le hy hb), Nat.mod_eq_of_lt hy]

/-- Membership in the raster scan list is exactly membership in the
coordinate rectangle. -/
theorem mem_coords {b : Bounds} {z w : Nat} :
    (z, w) ∈ coords b ↔
      b.x_min ≤ z ∧ z < b.x_max ∧ b.y_min ≤ w ∧ w < b.y_max := by
  unfold coords
  constructor
  · intro h
    obtain ⟨x, hx, h2⟩ := List.mem_flatMap.mp h
    obtain ⟨y, hy, h3⟩ := List.mem_map.mp h2
    obtain ⟨hz, hw⟩ := Prod.ext_iff.mp h3
    simp only at hz hw
    subst hz; subst hw
    have hx' := List.mem_range'_1.mp hx
    have hy' := List.mem_range'_1.mp hy
    exact ⟨hx'.1, by omega, hy'.1, by omega⟩
  · rintro ⟨h1, h2, h3, h4⟩
    refine List.mem_flatMap.mpr ⟨z, List.mem_range'_1.mpr ⟨h1, by omega⟩, ?_⟩
    exact List.mem_map.mpr ⟨w, List.mem_range'_1.mpr ⟨h3, by omega⟩, rfl⟩

/-- wrapI64 of zero is zero. -/
theorem wrapI64_zero : wrapI64 0 = 0 := by
  unfold wrapI64 toSigned64
  norm_num [U64]

/-- i64_to_u32_sat of zero is zero. -/
theorem i64_to_u32_sat_zero : i64_to_u32_sat 0 = 0 := by
  unfold i64_to_u32_sat
  norm_num [U32]

/-- brighten_pixels with addition zero is the identity on 8-bit
values. -/
theorem brighten_pixels_zero (p : Nat) (hp : p < 256) :
    brighten_pixels p 0 = p := by
  unfold brighten_pixels
  omega

/-! ## Generic lemmas about the per-pixel folds -/

/-- Folding a step that never fails on the elements of the list never
fails. -/
theorem foldlM_isSome {σ α : Type} (F : σ → α → Option σ) :
    ∀ (l : List α) (s : σ), (∀ t a, a ∈ l → (F t a).isSome) →
      (l.foldlM F s).isSome
  | [], _, _ => rfl
  | a :: l, s, h => by
      obtain ⟨s1, hs1⟩ := Option.isSome_iff_exists.mp (h s a (List.mem_cons_self a l))
      rw [List.foldlM_cons, hs1]
      exact foldlM_isSome F l s1 (fun t b hb => h t b (List.mem_cons_of_mem _ hb))

/-- Folding a step that preserves an invariant and writes the fixed
pixel value f at its own coordinate produces the buffer that agrees
with f on the scanned coordinates and with the initial buffer
elsewhere. -/
theorem foldlM_writes {σ : Type} (F : σ → Nat × Nat → Option σ)
    (P : σ → Prop) (buf : σ → Image) (f : Nat → Nat → Rgba) :
    ∀ (l : List (Nat × Nat)) (s : σ), P s →
      (∀ t xy, P t → xy ∈ l → ∃ t', F t xy = some t' ∧ P t' ∧
        buf t' = put_pixel (buf t) xy.1 xy.2 (f xy.1 xy.2)) →
      ∃ s', l.foldlM F s = some s' ∧ P s' ∧
        ∀ z w, buf s' z w = if (z, w) ∈ l then f z w else buf s z w
  | [], s, hP, _ => ⟨s, rfl, hP, fun z w => by simp⟩
  | a :: l, s, hP, hstep => by
      obtain ⟨a1, a2⟩ := a
      obtain ⟨t', hFa, hPt', hbuf⟩ :=
        hstep s (a1, a2) hP (List.mem_cons_self _ l)
      obtain ⟨s', hfold, hPs', hbufs'⟩ :=
        foldlM_writes F P buf f l t' hPt'
          (fun t xy ht hxy => hstep t xy ht (List.mem_cons_of_mem _ hxy))
      refine ⟨s', ?_, hPs', ?_⟩
      · rw [List.foldlM_cons, hFa]
        exact hfold
      · intro z w
        have hb := hbufs' z w
        rw [hbuf] at hb
        unfold put_pixel at hb
        dsimp only at hb
        by_cases hl : (z, w) ∈ l
        · rw [if_pos hl] at hb
          rw [if_pos (List.mem_cons_of_mem _ hl)]
          exact hb
        · rw [if_neg hl] at hb
          by_cases hz : z = a1 ∧ w = a2
          · rw [if_pos hz] at hb
            obtain ⟨hz1, hz2⟩ := hz
            subst hz1; subst hz2
            rw [if_pos (List.mem_cons_self _ _)]
            exact hb
          · rw [if_neg hz] at hb
            have hne : (z, w) ∉ (a1, a2) :: l := by
              rw [List.mem_cons]
              rintro (h1 | h2)
              · obtain ⟨e1, e2⟩ := Prod.ext_iff.mp h1
                exact hz ⟨e1, e2⟩
              · exact hl h2
            rw [if_neg hne]
            exact hb

/-! ## C4: bounds property of modified_pixel -/

/-- C4: for every u32 coordinate, offset and bound with a positive
bound, modified_pixel returns normally (the remainder of the
non-negative zero-extended wrapped sum is non-negative, so the final
signed-to-unsigned conversion succeeds) and the returned coordinate is
strictly below the bound. -/
theorem c4_modified_pixel_bounds (coord offset_coord b : Nat)
    (hc : coord < U32) (ho : offset_coord < U32) (hb : 0 < b) (hbu : b ≤ U32) :
    ∃ v, modified_pixel coord offset_coord b = some v ∧ v < b :=
  ⟨mpT coord offset_coord b, modified_pixel_pos _ _ _ hb, Nat.mod_lt _ hb⟩

theorem c4_witness : ∃ v, modified_pixel 7 3 5 = some v ∧ v < 5 :=
  c4_modified_pixel_bounds 7 3 5 (by norm_num [U32]) (by norm_num [U32])
    (by norm_num) (by norm_num [U32])

/-! ## C5: the brightening formula -/

/-- C5: brighten_pixels computes exactly the spec formula
channel_value - (channel_value * addition / 255) + addition in
wraparound 8-bit arithmetic with truncating division, and with
addition 0 it returns the channel value unchanged. -/
theorem c5_brighten_formula (channel_value addition : Nat)
    (hc : channel_value < 256) (ha : addition < 256) :
    brighten_pixels channel_value addition = brighten_formula channel_value addition
      ∧ brighten_pixels channel_value 0 = channel_value := by
  constructor
  · unfold brighten_pixels brighten_formula u8_add u8_sub u8_div u8_mul
    generalize channel_value * addition = m
    omega
  · exact brighten_pixels_zero _ hc

theorem c5_witness :
    brighten_pixels 100 255 = brighten_formula 100 255
      ∧ brighten_pixels 100 0 = 100 :=
  c5_brighten_formula 100 255 (by norm_num) (by norm_num)

/-! ## Closed form of stage 3 -/

/-- Unfolding of offset_u32 as one stream element. -/
theorem offset_u32_eq (g : RNG) (m : Nat) :
    offset_u32 g m = ((g.draws g.idx % U32) * m % U32, ⟨g.draws, g.idx + 1⟩) := rfl

/-- Value of the single whole-stage offset of chromatic_abberations, as
a function of the one stream element it consumes. -/
def stage3_offset_x (cfg : CLI) (g : RNG) : Nat :=
  (cfg.mean_abberation + (g.draws g.idx % U32) * cfg.std_abberation % U32) % U32

/-- Pixel written by chromatic_abberations at (x, y): red and alpha are
the red and alpha channels of the source at the column shifted by the
shared offset; the output green is the BLUE channel of the source at
that same shifted column; the output blue is the GREEN channel of the
source at the column x wrapped into bounds (the source's let (b, g)
tuple binding routes each sample to the opposite output channel); every
channel brightened. -/
def chromaPix (img : Image) (bnd : Bounds) (cfg : CLI) (offset_x x y : Nat) : Rgba :=
  ⟨brighten_pixels (img (mpT x offset_x bnd.x_max) (mpT 0 y bnd.y_max)).r
      cfg.brighteness_addition,
   brighten_pixels (img (mpT x offset_x bnd.x_max) (mpT 0 y bnd.y_max)).b
      cfg.brighteness_addition,
   brighten_pixels (img (mpT 0 x bnd.x_max) (mpT 0 y bnd.y_max)).g
      cfg.brighteness_addition,
   brighten_pixels (img (mpT x offset_x bnd.x_max) (mpT 0 y bnd.y_max)).a
      cfg.brighteness_addition⟩

/-- Per-pixel body of stage 3 in closed form: it always succeeds inside
the bounds and writes chromaPix at its own coordinate. -/
theorem chromatic_step_eq (img : Image) (bnd : Bounds) (cfg : CLI) (ox : Nat)
    (buf : Image) (x y : Nat) (hx : x < bnd.x_max) (hy : y < bnd.y_max) :
    chromatic_step img bnd cfg ox buf (x, y)
      = some (put_pixel buf x y (chromaPix img bnd cfg ox x y)) := by
  have h1 : modified_pixel x ox bnd.x_max = some (mpT x ox bnd.x_max) :=
    modified_pixel_pos _ _ _ (by omega)
  have h2 : modified_pixel 0 y bnd.y_max = some (mpT 0 y bnd.y_max) :=
    modified_pixel_pos _ _ _ (by omega)
  have h3 : modified_pixel 0 x bnd.x_max = some (mpT 0 x bnd.x_max) :=
    modified_pixel_pos _ _ _ (by omega)
  unfold chromatic_step
  simp only [h1, h2, h3]
  rfl

/-- Whole-stage closed form of chromatic_abberations: the stage always
succeeds, consumes exactly one stream element (drawn before the
per-pixel loop), and its buffer holds chromaPix with the one shared
offset at every scanned coordinate and the incoming buffer value
elsewhere. -/
theorem chromatic_abberations_spec (c : Corrupter) (g : RNG) (cfg : CLI) :
    ∃ buf', chromatic_abberations c g cfg
        = some ({ c with buffer := buf' }, ⟨g.draws, g.idx + 1⟩) ∧
      ∀ z w, buf' z w =
        if c.bounds.x_min ≤ z ∧ z < c.bounds.x_max
            ∧ c.bounds.y_min ≤ w ∧ w < c.bounds.y_max
        then chromaPix c.img c.bounds cfg (stage3_offset_x cfg g) z w
        else c.buffer z w := by
  obtain ⟨buf', hfold, -, hpt⟩ :=
    foldlM_writes (chromatic_step c.img c.bounds cfg (stage3_offset_x cfg g))
      (fun _ => True) (fun b => b)
      (chromaPix c.img c.bounds cfg (stage3_offset_x cfg g))
      (coords c.bounds) c.buffer trivial
      (by
        rintro t ⟨x, y⟩ - hxy
        obtain ⟨-, hx, -, hy⟩ := mem_coords.mp hxy
        exact ⟨_, chromatic_step_eq _ _ _ _ _ _ _ hx hy, trivial, rfl⟩)
  refine ⟨buf', ?_, ?_⟩
  · calc chromatic_abberations c g cfg
        = (List.foldlM (chromatic_step c.img c.bounds cfg (stage3_offset_x cfg g))
            c.buffer (coords c.bounds)).bind
            (fun buf => some (({ c with buffer := buf } : Corrupter),
              ({ draws := g.draws, idx := g.idx + 1 } : RNG))) := rfl
      _ = some ({ c with buffer := buf' }, { draws := g.draws, idx := g.idx + 1 }) := by
            rw [hfold]
            rfl
  · intro z w
    rw [hpt z w]
    by_cases h : c.bounds.x_min ≤ z ∧ z < c.bounds.x_max
        ∧ c.bounds.y_min ≤ w ∧ w < c.bounds.y_max
    · rw [if_pos (mem_coords.mpr h), if_pos h]
    · rw [if_neg (fun hm => h (mem_coords.mp hm)), if_neg h]

/-! ## C3: stage 3 draws its offset once, before the loop -/

/-- C3 amended: chromatic_abberations draws offset_x = mean_abberation
+ offset(std_abberation) exactly once before the per-pixel loop (the
output generator cursor is the input cursor plus one), so the same
offset serves every pixel; at every coordinate of the image the red and
alpha channels written come from the red and alpha of the source pixel
at (modified_pixel(x, offset_x, x_max), modified_pixel(0, y, y_max)),
the GREEN channel written is the BLUE channel of the source pixel at
that same shifted coordinate (modified_pixel(x, offset_x, x_max),
modified_pixel(0, y, y_max)), and the BLUE channel written is the GREEN
channel of the source pixel at (modified_pixel(0, x, x_max),
modified_pixel(0, y, y_max)), each passed through the brightening
function — the let (b, g) tuple binding routes each sample to the
opposite output channel, the reverse of the claimed green/blue
assignment (the single-draw part of the claim is as stated). -/
theorem c3_chromatic_single_draw (c : Corrupter) (g : RNG) (cfg : CLI) :
    ∃ buf', chromatic_abberations c g cfg
        = some ({ c with buffer := buf' }, ⟨g.draws, g.idx + 1⟩) ∧
      ∀ z w, c.bounds.x_min ≤ z → z < c.bounds.x_max →
        c.bounds.y_min ≤ w → w < c.bounds.y_max →
        buf' z w = chromaPix c.img c.bounds cfg (stage3_offset_x cfg g) z w := by
  obtain ⟨buf', heq, hpt⟩ := chromatic_abberations_spec c g cfg
  refine ⟨buf', heq, ?_⟩
  intro z w h1 h2 h3 h4
  rw [hpt z w, if_pos ⟨h1, h2, h3, h4⟩]

/-! ## Concrete instances used by the witnesses -/

/-- Constant test image. -/
def imgEx : Image := fun _ _ => ⟨1, 2, 3, 4⟩

/-- All-zero draw stream at cursor zero. -/
def gEx : RNG := ⟨fun _ => 0, 0⟩

/-- Default configuration of the CLI (stride_magnitude 0.1 truncates to
0 as u32). -/
def cfgEx : CLI := ⟨7, 15, 30, 0, 12, 17, 18, 10, 3, 10, 1⟩

/-- Default configuration with block_height lowered to 1 so that the
stage-1 Bernoulli trial is valid on small images. -/
def cfgEx1 : CLI := ⟨7, 1, 30, 0, 12, 17, 18, 10, 3, 10, 1⟩

/-- Corrupter over a 2 by 2 constant image. -/
def cEx : Corrupter := Corrupter.new imgEx 2 2

/-- C3 counterexample: on the constant source image (1, 2, 3, 4) with
the default configuration (brightness addition 3), the green channel
written by stage 3 at (0, 0) is the brightened BLUE channel of the
source, brighten_pixels 3 3 = 6, not the brightened green channel
brighten_pixels 2 3 = 5 that the claim prescribes (every source pixel
of this image has green 2, so the claimed value is 5 whatever
coordinate the sample comes from). -/
theorem c3_counterexample :
    cEx.img 0 0 = ⟨1, 2, 3, 4⟩
      ∧ Option.map (fun r => (r.1.buffer 0 0).g)
          (chromatic_abberations cEx gEx cfgEx) = some (brighten_pixels 3 3)
      ∧ brighten_pixels 3 3 ≠ brighten_pixels 2 3 := by
  refine ⟨rfl, ?_, ?_⟩ <;> decide

theorem c3_witness :
    ∃ buf', chromatic_abberations cEx gEx cfgEx
        = some ({ cEx with buffer := buf' }, ⟨gEx.draws, gEx.idx + 1⟩) ∧
      buf' 0 0 = chromaPix cEx.img cEx.bounds cfgEx (stage3_offset_x cfgEx gEx) 0 0 := by
  obtain ⟨buf', heq, hpt⟩ := c3_chromatic_single_draw cEx gEx cfgEx
  exact ⟨buf', heq, hpt 0 0 (Nat.le_refl 0) (by norm_num [cEx, Corrupter.new])
    (Nat.le_refl 0) (by norm_num [cEx, Corrupter.new])⟩

/-! ## Stage 1: totality under the Bernoulli precondition -/

/-- Per-pixel body of dissolve_block never fails inside the bounds when
the Bernoulli numerator block_height does not exceed the denominator
x_max: the saturating conversions make the coordinate computation
total. -/
theorem dissolve_step_isSome (img : Image) (bnd : Bounds) (cfg : CLI)
    (st : S1State) (x y : Nat) (hx : x < bnd.x_max) (hy : y < bnd.y_max)
    (hbh : cfg.block_height ≤ bnd.x_max) :
    (dissolve_step img bnd cfg st (x, y)).isSome := by
  have hmx : ∀ o, modified_pixel x o bnd.x_max = some (mpT x o bnd.x_max) :=
    fun o => modified_pixel_pos _ _ _ (by omega)
  have hmy : ∀ o, modified_pixel y o bnd.y_max = some (mpT y o bnd.y_max) :=
    fun o => modified_pixel_pos _ _ _ (by omega)
  unfold dissolve_step gen_ratio
  rw [if_neg (by omega)]
  by_cases hbe : cfg.block_height = bnd.x_max
  · rw [if_pos hbe]
    simp [hmx, hmy]
  · rw [if_neg hbe]
    simp [hmx, hmy]

/-! ## C6: saturating signed-to-unsigned conversion in stage 1 -/

/-- C6: whenever the signed 64-bit offset cannot be represented as an
unsigned 32-bit value (negative or above the u32 maximum), the
conversion used by dissolve_block saturates to the u32 maximum; and the
stage as a whole proceeds to read and write every pixel normally — it
never fails, whatever offsets are drawn — as long as its Bernoulli
trial is well formed (block_height at most x_max). -/
theorem c6_conversion_saturates :
    (∀ z : Int, z < 0 ∨ (U32 : Int) ≤ z → i64_to_u32_sat z = U32 - 1)
      ∧ ∀ (c : Corrupter) (g : RNG) (cfg : CLI),
          cfg.block_height ≤ c.bounds.x_max →
          (dissolve_block c g cfg).isSome := by
  constructor
  · intro z hz
    unfold i64_to_u32_sat
    rw [if_neg (by omega)]
  · intro c g cfg hbh
    have h := foldlM_isSome (dissolve_step c.img c.bounds cfg) (coords c.bounds)
      ⟨0, 0, 0, c.buffer, g⟩
      (fun t a ha => by
        obtain ⟨x, y⟩ := a
        obtain ⟨-, hx, -, hy⟩ := mem_coords.mp ha
        exact dissolve_step_isSome _ _ _ _ _ _ hx hy hbh)
    obtain ⟨st, hst⟩ := Option.isSome_iff_exists.mp h
    unfold dissolve_block
    rw [hst]
    rfl

/-- Corrupter over a zero-width, one-pixel-tall image. -/
def cW0 : Corrupter := Corrupter.new imgEx 0 1

/-- Corrupter over a 1 by 1 image. -/
def c11 : Corrupter := Corrupter.new imgEx 1 1

theorem c6_witness :
    i64_to_u32_sat (-1) = U32 - 1 ∧ (dissolve_block cEx gEx cfgEx1).isSome :=
  ⟨c6_conversion_saturates.1 (-1) (Or.inl (by norm_num)),
   c6_conversion_saturates.2 cEx gEx cfgEx1 (by decide)⟩

/-! ## C10: the Bernoulli trial precondition of stage 1 -/

/-- C10 counterexample: a zero-width image is narrower than the default
block_height of 15, yet dissolve_block does not abort on it — its
per-pixel loop is empty, so the Bernoulli trial never runs and the
stage returns normally, contradicting the claim that the stage panics
whenever the width is below block_height or zero. -/
theorem c10_counterexample : (dissolve_block cW0 gEx cfgEx).isSome := rfl

/-- C10 amended: the undocumented precondition block_height at most
x_max binds only when the image has at least one pixel.  When both
dimensions are positive and block_height exceeds the width, the first
Bernoulli trial panics and the stage fails on its first pixel; when the
width is zero the loop body never runs and the stage returns normally
instead of panicking. -/
theorem c10_bernoulli_precondition (c : Corrupter) (g : RNG) (cfg : CLI)
    (hx0 : c.bounds.x_min = 0) (hy0 : c.bounds.y_min = 0) :
    (0 < c.bounds.x_max → 0 < c.bounds.y_max → c.bounds.x_max < cfg.block_height →
      dissolve_block c g cfg = none)
    ∧ (c.bounds.x_max = 0 → (dissolve_block c g cfg).isSome) := by
  constructor
  · intro hx hy hbh
    obtain ⟨t, ht⟩ : ∃ t, coords c.bounds = (0, 0) :: t := by
      unfold coords
      rw [hx0, hy0]
      rw [show c.bounds.x_max - 0 = (c.bounds.x_max - 1) + 1 by omega,
        List.range'_succ, List.flatMap_cons,
        show c.bounds.y_max - 0 = (c.bounds.y_max - 1) + 1 by omega,
        List.range'_succ, List.map_cons, List.cons_append]
      exact ⟨_, rfl⟩
    have hstep : dissolve_step c.img c.bounds cfg ⟨0, 0, 0, c.buffer, g⟩ (0, 0)
        = none := by
      unfold dissolve_step gen_ratio
      rw [if_pos (by omega)]
      rfl
    unfold dissolve_block
    rw [ht, List.foldlM_cons, hstep]
    rfl
  · intro hx
    unfold dissolve_block coords
    rw [hx0, hx]
    rfl

theorem c10_witness :
    dissolve_block c11 gEx cfgEx = none
      ∧ (dissolve_block cW0 gEx cfgEx).isSome :=
  ⟨(c10_bernoulli_precondition c11 gEx cfgEx rfl rfl).1
      (by decide) (by decide) (by decide),
   (c10_bernoulli_precondition cW0 gEx cfgEx rfl rfl).2 rfl⟩

/-! ## C1 counterexample: the identity configuration panics on narrow
images, and stages 2 and 3 transpose green and blue -/

/-- Configuration with every parameter named by the identity property
set to zero and block_height left at its default of 15. -/
def cfgC1 : CLI := ⟨0, 15, 0, 0, 0, 0, 0, 0, 0, 0, 0⟩

/-- Identity configuration with block_height 1 (valid on any image of
positive width). -/
def cfgZ : CLI := ⟨0, 1, 0, 0, 0, 0, 0, 0, 0, 0, 0⟩

/-- C1 counterexample: the identity claim fails twice on the code.
First, on a 1 by 1 source image (positive width and height) with the
identity parameters and the default block_height of 15, stage 1 panics
on its first pixel instead of reproducing the source, because its
Bernoulli trial gen_ratio(15, 1) is invalid.  Second, even with a valid
block_height of 1, stages 2 and 3 on the constant source pixel
(1, 2, 3, 4) write (1, 3, 2, 4) — the tuple binding let (b, g) routes
the green sample to the blue output and the blue sample to the green
output, so neither stage reproduces the source pixel. -/
theorem c1_counterexample :
    dissolve_block c11 gEx cfgC1 = none
      ∧ Option.map (fun r => r.1.buffer 0 0) (random_brightening cEx gEx cfgZ)
          ≠ some (cEx.img 0 0)
      ∧ Option.map (fun r => r.1.buffer 0 0) (chromatic_abberations cEx gEx cfgZ)
          ≠ some (cEx.img 0 0) := by
  refine ⟨rfl, ?_, ?_⟩ <;> decide

/-! ## Identity configuration: per-stage step lemmas -/

/-- Eta rule for pixels. -/
theorem Rgba.eta (p : Rgba) : (⟨p.r, p.g, p.b, p.a⟩ : Rgba) = p := rfl

/-- Pixel with its green and blue channels transposed: the net effect
of the let (b, g) tuple binding of stages 2 and 3 once every sampling
displacement is zero. -/
def Rgba.swapGB (p : Rgba) : Rgba := ⟨p.r, p.b, p.g, p.a⟩

/-- Body of stage 1 under the identity configuration (every magnitude,
offset and stride zero): it always writes the untouched source pixel at
its own coordinate, keeping the zero block state. -/
theorem dissolve_step_zero (img : Image) (bnd : Bounds) (cfg : CLI) (st : S1State)
    (x y : Nat) (hx : x < bnd.x_max) (hy : y < bnd.y_max)
    (hxu : bnd.x_max ≤ U32) (hyu : bnd.y_max ≤ U32)
    (hbh : cfg.block_height ≤ bnd.x_max)
    (hm : cfg.magnitude = 0) (hbo : cfg.block_offset = 0)
    (hsm : cfg.stride_magnitude = 0)
    (h0 : st.line_offset = 0) (h1 : st.stride = 0) :
    ∃ st', dissolve_step img bnd cfg st (x, y) = some st'
      ∧ (st'.line_offset = 0 ∧ st'.stride = 0)
      ∧ st'.buffer = put_pixel st.buffer x y (img x y) := by
  have hmx : modified_pixel x 0 bnd.x_max = some x := by
    rw [modified_pixel_pos _ _ _ (by omega), mpT_self _ _ hx hxu]
  have hmy : modified_pixel y 0 bnd.y_max = some y := by
    rw [modified_pixel_pos _ _ _ (by omega), mpT_self _ _ hy hyu]
  unfold dissolve_step gen_ratio
  rw [if_neg (by omega)]
  by_cases hbe : cfg.block_height = bnd.x_max
  · rw [if_pos hbe]
    simp [hm, hbo, hsm, h0, h1, offset_i64, sample_i64, wrapI64_zero,
      i64_to_u32_sat_zero, hmx, hmy]
  · rw [if_neg hbe]
    by_cases htr : st.rng.draws st.rng.idx % bnd.x_max < cfg.block_height
    · simp [hm, hbo, hsm, h0, h1, offset_i64, sample_i64, wrapI64_zero,
        i64_to_u32_sat_zero, hmx, hmy, htr, RNG.next]
    · simp [hm, hbo, hsm, h0, h1, offset_i64, sample_i64, wrapI64_zero,
        i64_to_u32_sat_zero, hmx, hmy, htr, RNG.next]

/-- Body of stage 2 under the identity configuration: every lag and the
shared offset reduce to zero, so every sample comes from (x, y) itself,
and the tuple binding writes the source pixel with green and blue
transposed. -/
theorem brightening_step_zero (img : Image) (bnd : Bounds) (cfg : CLI)
    (hv : Image.Valid img) (st : Image × RNG) (x y : Nat)
    (hx : x < bnd.x_max) (hy : y < bnd.y_max)
    (hxu : bnd.x_max ≤ U32) (hyu : bnd.y_max ≤ U32)
    (hlr : cfg.lr = 0) (hlg : cfg.lg = 0) (hlb : cfg.lb = 0)
    (hso : cfg.std_offset = 0) (hba : cfg.brighteness_addition = 0) :
    ∃ st', brightening_step img bnd cfg st (x, y) = some st'
      ∧ st'.1 = put_pixel st.1 x y (Rgba.swapGB (img x y)) := by
  have hxU : x < U32 := by omega
  have hxm : x % U32 = x := Nat.mod_eq_of_lt hxU
  have hm1 : modified_pixel x 0 bnd.x_max = some x := by
    rw [modified_pixel_pos _ _ _ (by omega), mpT_self _ _ hx hxu]
  have hm2 : modified_pixel 0 y bnd.y_max = some y := by
    rw [modified_pixel_pos _ _ _ (by omega), mpT_zero _ _ hy hyu]
  obtain ⟨hr, hg, hb, ha⟩ := hv x y
  have er : brighten_pixels (img x y).r 0 = (img x y).r := brighten_pixels_zero _ hr
  have eg : brighten_pixels (img x y).g 0 = (img x y).g := brighten_pixels_zero _ hg
  have eb : brighten_pixels (img x y).b 0 = (img x y).b := brighten_pixels_zero _ hb
  have ea : brighten_pixels (img x y).a 0 = (img x y).a := brighten_pixels_zero _ ha
  unfold brightening_step Rgba.swapGB
  simp [hlr, hlg, hlb, hso, hba, offset_u32, sample_u32, hxm, hm1, hm2,
    er, eg, eb, ea]

/-- Pixel written by stage 3 with a zero shared offset under the
identity configuration: the source pixel with green and blue
transposed. -/
theorem chromaPix_zero (img : Image) (bnd : Bounds) (cfg : CLI)
    (hv : Image.Valid img) (x y : Nat) (hx : x < bnd.x_max) (hy : y < bnd.y_max)
    (hxu : bnd.x_max ≤ U32) (hyu : bnd.y_max ≤ U32)
    (hba : cfg.brighteness_addition = 0) :
    chromaPix img bnd cfg 0 x y = Rgba.swapGB (img x y) := by
  obtain ⟨hr, hg, hb, ha⟩ := hv x y
  unfold chromaPix Rgba.swapGB
  rw [hba, mpT_self _ _ hx hxu, mpT_zero _ _ hx hxu, mpT_zero _ _ hy hyu,
    brighten_pixels_zero _ hr, brighten_pixels_zero _ hg,
    brighten_pixels_zero _ hb, brighten_pixels_zero _ ha]

/-- Shared stage-3 offset under the identity configuration. -/
theorem stage3_offset_x_zero (cfg : CLI) (g : RNG)
    (hma : cfg.mean_abberation = 0) (hsa : cfg.std_abberation = 0) :
    stage3_offset_x cfg g = 0 := by
  simp [stage3_offset_x, hma, hsa]

/-! ## C1: the identity property, amended with the stage-1 precondition -/

/-- C1 amended: with magnitude, block_offset, stride_magnitude, the
three lags, std_offset, mean_abberation, std_abberation and
brighteness_addition all zero, and additionally block_height at most
the image width (without this extra hypothesis stage 1 panics on its
first Bernoulli trial — see the counterexample), on a source image with
valid 8-bit channels: stage 1 writes into the output buffer at every
coordinate exactly the source pixel at that coordinate, while stages 2
and 3 write at every coordinate the source pixel at that coordinate
with its green and blue channels transposed (the sampling displacements
all vanish and the brightening is the identity, but the let (b, g)
tuple binding still crosses the two channels — see the
counterexample). -/
theorem c1_identity_property (c : Corrupter) (g : RNG) (cfg : CLI)
    (hv : Image.Valid c.img)
    (hxu : c.bounds.x_max ≤ U32) (hyu : c.bounds.y_max ≤ U32)
    (hbh : cfg.block_height ≤ c.bounds.x_max)
    (hm : cfg.magnitude = 0) (hbo : cfg.block_offset = 0)
    (hsm : cfg.stride_magnitude = 0)
    (hlr : cfg.lr = 0) (hlg : cfg.lg = 0) (hlb : cfg.lb = 0)
    (hso : cfg.std_offset = 0) (hba : cfg.brighteness_addition = 0)
    (hma : cfg.mean_abberation = 0) (hsa : cfg.std_abberation = 0) :
    (∃ r1, dissolve_block c g cfg = some r1 ∧
       ∀ x y, c.bounds.x_min ≤ x → x < c.bounds.x_max →
         c.bounds.y_min ≤ y → y < c.bounds.y_max →
         r1.1.buffer x y = c.img x y)
    ∧ (∃ r2, random_brightening c g cfg = some r2 ∧
       ∀ x y, c.bounds.x_min ≤ x → x < c.bounds.x_max →
         c.bounds.y_min ≤ y → y < c.bounds.y_max →
         r2.1.buffer x y = Rgba.swapGB (c.img x y))
    ∧ (∃ r3, chromatic_abberations c g cfg = some r3 ∧
       ∀ x y, c.bounds.x_min ≤ x → x < c.bounds.x_max →
         c.bounds.y_min ≤ y → y < c.bounds.y_max →
         r3.1.buffer x y = Rgba.swapGB (c.img x y)) := by
  refine ⟨?_, ?_, ?_⟩
  · obtain ⟨s', hfold, -, hpt⟩ :=
      foldlM_writes (dissolve_step c.img c.bounds cfg)
        (fun st => st.line_offset = 0 ∧ st.stride = 0) S1State.buffer
        (fun x y => c.img x y) (coords c.bounds)
        ⟨0, 0, 0, c.buffer, g⟩ ⟨rfl, rfl⟩
        (by
          rintro t ⟨x, y⟩ ⟨ht0, ht1⟩ hxy
          obtain ⟨-, hx, -, hy⟩ := mem_coords.mp hxy
          exact dissolve_step_zero c.img c.bounds cfg t x y hx hy hxu hyu
            hbh hm hbo hsm ht0 ht1)
    refine ⟨({ c with buffer := s'.buffer }, s'.rng), ?_, ?_⟩
    · calc dissolve_block c g cfg
          = (List.foldlM (dissolve_step c.img c.bounds cfg)
              (⟨0, 0, 0, c.buffer, g⟩ : S1State) (coords c.bounds)).bind
              (fun st => some (({ c with buffer := st.buffer } : Corrupter),
                st.rng)) := rfl
        _ = some ({ c with buffer := s'.buffer }, s'.rng) := by
              rw [hfold]
              rfl
    · intro x y h1 h2 h3 h4
      have hp := hpt x y
      rw [if_pos (mem_coords.mpr ⟨h1, h2, h3, h4⟩)] at hp
      exact hp
  · obtain ⟨s', hfold, -, hpt⟩ :=
      foldlM_writes (brightening_step c.img c.bounds cfg)
        (fun _ => True) (fun st => st.1)
        (fun x y => Rgba.swapGB (c.img x y)) (coords c.bounds)
        (c.buffer, g) trivial
        (by
          rintro t ⟨x, y⟩ - hxy
          obtain ⟨-, hx, -, hy⟩ := mem_coords.mp hxy
          obtain ⟨st', h1, h2⟩ := brightening_step_zero c.img c.bounds cfg hv
            t x y hx hy hxu hyu hlr hlg hlb hso hba
          exact ⟨st', h1, trivial, h2⟩)
    refine ⟨({ c with buffer := s'.1 }, s'.2), ?_, ?_⟩
    · calc random_brightening c g cfg
          = (List.foldlM (brightening_step c.img c.bounds cfg)
              (c.buffer, g) (coords c.bounds)).bind
              (fun st => some (({ c with buffer := st.1 } : Corrupter),
                st.2)) := rfl
        _ = some ({ c with buffer := s'.1 }, s'.2) := by
              rw [hfold]
              rfl
    · intro x y h1 h2 h3 h4
      have hp := hpt x y
      rw [if_pos (mem_coords.mpr ⟨h1, h2, h3, h4⟩)] at hp
      exact hp
  · obtain ⟨buf', heq, hpt⟩ := chromatic_abberations_spec c g cfg
    refine ⟨({ c with buffer := buf' }, ⟨g.draws, g.idx + 1⟩), heq, ?_⟩
    intro x y h1 h2 h3 h4
    have hp := hpt x y
    rw [if_pos ⟨h1, h2, h3, h4⟩] at hp
    show buf' x y = Rgba.swapGB (c.img x y)
    rw [hp, stage3_offset_x_zero cfg g hma hsa,
      chromaPix_zero c.img c.bounds cfg hv x y h2 h4 hxu hyu hba]

theorem c1_witness :
    (∃ r1, dissolve_block cEx gEx cfgZ = some r1
        ∧ r1.1.buffer 0 1 = cEx.img 0 1)
    ∧ (∃ r2, random_brightening cEx gEx cfgZ = some r2
        ∧ r2.1.buffer 1 0 = Rgba.swapGB (cEx.img 1 0))
    ∧ (∃ r3, chromatic_abberations cEx gEx cfgZ = some r3
        ∧ r3.1.buffer 1 1 = Rgba.swapGB (cEx.img 1 1)) := by
  obtain ⟨⟨r1, e1, p1⟩, ⟨r2, e2, p2⟩, ⟨r3, e3, p3⟩⟩ :=
    c1_identity_property cEx gEx cfgZ
      (fun x y => ⟨(by norm_num : (1 : Nat) < 256), (by norm_num : (2 : Nat) < 256),
        (by norm_num : (3 : Nat) < 256), (by norm_num : (4 : Nat) < 256)⟩)
      (by decide) (by decide) (by decide)
      rfl rfl rfl rfl rfl rfl rfl rfl rfl rfl
  exact ⟨⟨r1, e1, p1 0 1 (by decide) (by decide) (by decide) (by decide)⟩,
    ⟨r2, e2, p2 1 0 (by decide) (by decide) (by decide) (by decide)⟩,
    ⟨r3, e3, p3 1 1 (by decide) (by decide) (by decide) (by decide)⟩⟩

/-! ## C7: behaviour on a zero-height image -/

/-- C7 counterexample: on a decoded image of width 1 and height 0 the
pipeline does not fail fast with a bounds error — all three stages run
and return normally (their per-pixel loops are empty), so the claim
that the stages do not run and that a bounds error is raised is false
on this input. -/
theorem c7_counterexample : (pipeline imgEx 1 0 gEx cfgEx).isSome := rfl

/-- C7 amended: the code performs no bounds validation; with a
zero-height image every per-pixel loop is empty, so no modulo is ever
attempted (vacuously) and the three stages complete without error,
leaving the output buffer in its zero-initialised state; only the
pre-loop draw of stage 3 consumes the generator.  Any failure is
deferred to the external write step, outside the corruption core. -/
theorem c7_zero_height_runs (img : Image) (w : Nat) (g : RNG) (cfg : CLI) :
    ∃ r, pipeline img w 0 g cfg = some r
      ∧ (∀ x y, r.1.buffer x y = ⟨0, 0, 0, 0⟩)
      ∧ r.2.draws = g.draws ∧ r.2.idx = g.idx + 1 := by
  have hnil : coords (Corrupter.new img w 0).bounds = [] := by
    apply List.eq_nil_iff_forall_not_mem.mpr
    rintro ⟨z, u⟩ hm
    exact Nat.not_lt_zero u (mem_coords.mp hm).2.2.2
  have h1 : dissolve_block (Corrupter.new img w 0) g cfg
      = some (Corrupter.new img w 0, g) := by
    unfold dissolve_block
    rw [hnil]
    rfl
  have h2 : random_brightening (Corrupter.new img w 0) g cfg
      = some (Corrupter.new img w 0, g) := by
    unfold random_brightening
    rw [hnil]
    rfl
  have h3 : chromatic_abberations (Corrupter.new img w 0) g cfg
      = some (Corrupter.new img w 0, ⟨g.draws, g.idx + 1⟩) := by
    unfold chromatic_abberations
    rw [hnil]
    rfl
  refine ⟨(Corrupter.new img w 0, ⟨g.draws, g.idx + 1⟩), ?_, fun x y => rfl, rfl, rfl⟩
  unfold pipeline pipeline3
  rw [h1]
  show (random_brightening (Corrupter.new img w 0) g cfg).bind
      (fun s2 => chromatic_abberations s2.1 s2.2 cfg)
    = some (Corrupter.new img w 0, ⟨g.draws, g.idx + 1⟩)
  rw [h2]
  show chromatic_abberations (Corrupter.new img w 0) g cfg
    = some (Corrupter.new img w 0, ⟨g.draws, g.idx + 1⟩)
  exact h3

/-! ## Closed form of stage 2 -/

/-- Pixel written by random_brightening at (x, y) when the stage entry
stream is d and the four draws of this pixel sit at indices b, b+1,
b+2, b+3 (in the order lr, lg, lb, offset_x): red and alpha are the red
and alpha channels of the source at the column x - lr shifted by
offset_x; the output green is the BLUE channel of the source at the
column x + lb shifted by offset_x; the output blue is the GREEN channel
of the source at the column x shifted by lg (the source's let (b, g)
tuple binding routes each sample to the opposite output channel); the
row is always y mod y_max; every channel brightened. -/
def s2Pix (img : Image) (bnd : Bounds) (cfg : CLI) (d : Nat → Nat)
    (b x y : Nat) : Rgba :=
  let lr := (cfg.lr + d b % U32 * cfg.lr % U32) % U32
  let lg := (cfg.lg + d (b + 1) % U32 * cfg.lg % U32) % U32
  let lb := (cfg.lb + d (b + 2) % U32 * cfg.lb % U32) % U32
  let ox := d (b + 3) % U32 * cfg.std_offset % U32
  let ry := mpT 0 y bnd.y_max
  let pRA := img (mpT ((x + U32 - lr) % U32) ox bnd.x_max) ry
  ⟨brighten_pixels pRA.r cfg.brighteness_addition,
   brighten_pixels (img (mpT ((x + lb) % U32) ox bnd.x_max) ry).b
      cfg.brighteness_addition,
   brighten_pixels (img (mpT x lg bnd.x_max) ry).g cfg.brighteness_addition,
   brighten_pixels pRA.a cfg.brighteness_addition⟩

/-- Per-pixel body of stage 2 in closed form: inside the bounds it
always succeeds, consumes exactly four stream elements, and writes
s2Pix at its own coordinate. -/
theorem brightening_step_eq (img : Image) (bnd : Bounds) (cfg : CLI)
    (buf : Image) (g : RNG) (x y : Nat) (hx : x < bnd.x_max) (hy : y < bnd.y_max) :
    brightening_step img bnd cfg (buf, g) (x, y)
      = some (put_pixel buf x y (s2Pix img bnd cfg g.draws g.idx x y),
          ⟨g.draws, g.idx + 4⟩) := by
  have hm1 : ∀ a o, modified_pixel a o bnd.x_max = some (mpT a o bnd.x_max) :=
    fun a o => modified_pixel_pos _ _ _ (by omega)
  have hm2 : ∀ o, modified_pixel 0 o bnd.y_max = some (mpT 0 o bnd.y_max) :=
    fun o => modified_pixel_pos _ _ _ (by omega)
  unfold brightening_step s2Pix offset_u32 sample_u32 RNG.next
  simp only [hm1, hm2, Option.bind_eq_bind, Option.some_bind]

/-- Restatement of the stage-2 step closed form with the generator
split into its stream and cursor. -/
theorem brightening_step_eqd (img : Image) (bnd : Bounds) (cfg : CLI)
    (buf : Image) (d : Nat → Nat) (b x y : Nat)
    (hx : x < bnd.x_max) (hy : y < bnd.y_max) :
    brightening_step img bnd cfg (buf, ⟨d, b⟩) (x, y)
      = some (put_pixel buf x y (s2Pix img bnd cfg d b x y), ⟨d, b + 4⟩) :=
  brightening_step_eq img bnd cfg buf ⟨d, b⟩ x y hx hy

/-- Inner loop of stage 2 over one column block: scanning (x, y0) up to
(x, y0+m-1) consumes 4m stream elements, giving each pixel the four
draws at its own position. -/
theorem s2_col (img : Image) (bnd : Bounds) (cfg : CLI) (x : Nat)
    (hx : x < bnd.x_max) :
    ∀ (m y0 : Nat), y0 + m ≤ bnd.y_max →
      ∀ (buf : Image) (d : Nat → Nat) (b : Nat),
      ∃ buf', List.foldlM (brightening_step img bnd cfg) (buf, ⟨d, b⟩)
          ((List.range' y0 m).map (fun y => (x, y)))
        = some (buf', ⟨d, b + 4 * m⟩)
      ∧ ∀ z w, buf' z w =
          if z = x ∧ y0 ≤ w ∧ w < y0 + m
          then s2Pix img bnd cfg d (b + 4 * (w - y0)) z w
          else buf z w
  | 0, y0, hm, buf, d, b => by
      refine ⟨buf, rfl, ?_⟩
      intro z w
      rw [if_neg (by rintro ⟨-, h1, h2⟩; omega)]
  | m + 1, y0, hm, buf, d, b => by
      have hy : y0 < bnd.y_max := by omega
      obtain ⟨buf', hfold, hpt⟩ := s2_col img bnd cfg x hx m (y0 + 1) (by omega)
        (put_pixel buf x y0 (s2Pix img bnd cfg d b x y0)) d (b + 4)
      refine ⟨buf', ?_, ?_⟩
      · rw [List.range'_succ, List.map_cons, List.foldlM_cons,
          brightening_step_eqd img bnd cfg buf d b x y0 hx hy]
        simp only [Option.bind_eq_bind, Option.some_bind]
        rw [hfold, show b + 4 + 4 * m = b + 4 * (m + 1) from by omega]
      · intro z w
        have hp := hpt z w
        by_cases hzw : z = x ∧ y0 ≤ w ∧ w < y0 + (m + 1)
        · rw [if_pos hzw]
          obtain ⟨hz, hw1, hw2⟩ := hzw
          by_cases hwy : w = y0
          · rw [if_neg (by omega : ¬(z = x ∧ y0 + 1 ≤ w ∧ w < y0 + 1 + m))] at hp
            rw [hp]
            unfold put_pixel
            rw [if_pos ⟨hz, hwy⟩, hz, hwy,
              show b + 4 * (y0 - y0) = b from by omega]
          · rw [if_pos (by omega : z = x ∧ y0 + 1 ≤ w ∧ w < y0 + 1 + m)] at hp
            rw [hp,
              show b + 4 + 4 * (w - (y0 + 1)) = b + 4 * (w - y0) from by omega]
        · rw [if_neg hzw]
          rw [if_neg (by omega : ¬(z = x ∧ y0 + 1 ≤ w ∧ w < y0 + 1 + m))] at hp
          rw [hp]
          unfold put_pixel
          rw [if_neg (by omega : ¬(z = x ∧ w = y0))]

/-- Outer loop of stage 2: scanning the columns x0 up to x0+n-1, each
over the full row range, consumes 4 draws per pixel in raster order, so
the pixel at (z, w) gets the four draws at base index
b + 4 ((z - x0) rows + (w - y_min)). -/
theorem s2_rows (img : Image) (bnd : Bounds) (cfg : CLI)
    (hym : bnd.y_min ≤ bnd.y_max) :
    ∀ (n x0 : Nat), x0 + n ≤ bnd.x_max →
      ∀ (buf : Image) (d : Nat → Nat) (b : Nat),
      ∃ buf', List.foldlM (brightening_step img bnd cfg) (buf, ⟨d, b⟩)
          ((List.range' x0 n).flatMap
            (fun x => (List.range' bnd.y_min (bnd.y_max - bnd.y_min)).map
              (fun y => (x, y))))
        = some (buf', ⟨d, b + 4 * (n * (bnd.y_max - bnd.y_min))⟩)
      ∧ ∀ z w, buf' z w =
          if x0 ≤ z ∧ z < x0 + n ∧ bnd.y_min ≤ w
              ∧ w < bnd.y_min + (bnd.y_max - bnd.y_min)
          then s2Pix img bnd cfg d
            (b + 4 * ((z - x0) * (bnd.y_max - bnd.y_min) + (w - bnd.y_min))) z w
          else buf z w
  | 0, x0, hn, buf, d, b => by
      refine ⟨buf, ?_, ?_⟩
      · rw [show 0 * (bnd.y_max - bnd.y_min) = 0 from Nat.zero_mul _]
        rfl
      · intro z w
        rw [if_neg (by rintro ⟨h1, h2, -, -⟩; omega)]
  | n + 1, x0, hn, buf, d, b => by
      have hx : x0 < bnd.x_max := by omega
      obtain ⟨buf1, hcol, hcolpt⟩ := s2_col img bnd cfg x0 hx
        (bnd.y_max - bnd.y_min) bnd.y_min (by omega) buf d b
      obtain ⟨buf', hrows, hrowpt⟩ := s2_rows img bnd cfg hym n (x0 + 1) (by omega)
        buf1 d (b + 4 * (bnd.y_max - bnd.y_min))
      refine ⟨buf', ?_, ?_⟩
      · rw [List.range'_succ, List.flatMap_cons, List.foldlM_append, hcol]
        simp only [Option.bind_eq_bind, Option.some_bind]
        rw [hrows,
          show b + 4 * (bnd.y_max - bnd.y_min) + 4 * (n * (bnd.y_max - bnd.y_min))
              = b + 4 * ((n + 1) * (bnd.y_max - bnd.y_min)) from by
            rw [Nat.succ_mul]
            ring]
      · intro z w
        have hp := hrowpt z w
        by_cases hzw : x0 ≤ z ∧ z < x0 + (n + 1) ∧ bnd.y_min ≤ w
            ∧ w < bnd.y_min + (bnd.y_max - bnd.y_min)
        · rw [if_pos hzw]
          obtain ⟨hz1, hz2, hw1, hw2⟩ := hzw
          by_cases hzx : z = x0
          · rw [if_neg (by omega : ¬(x0 + 1 ≤ z ∧ z < x0 + 1 + n ∧ bnd.y_min ≤ w
                ∧ w < bnd.y_min + (bnd.y_max - bnd.y_min)))] at hp
            rw [hp]
            have hc := hcolpt z w
            rw [if_pos ⟨hzx, hw1, hw2⟩] at hc
            rw [hc, hzx,
              show b + 4 * (w - bnd.y_min)
                  = b + 4 * ((x0 - x0) * (bnd.y_max - bnd.y_min) + (w - bnd.y_min))
                from by rw [Nat.sub_self, Nat.zero_mul, Nat.zero_add]]
          · rw [if_pos (by omega : x0 + 1 ≤ z ∧ z < x0 + 1 + n ∧ bnd.y_min ≤ w
                ∧ w < bnd.y_min + (bnd.y_max - bnd.y_min))] at hp
            rw [hp,
              show b + 4 * (bnd.y_max - bnd.y_min)
                    + 4 * ((z - (x0 + 1)) * (bnd.y_max - bnd.y_min) + (w - bnd.y_min))
                  = b + 4 * ((z - x0) * (bnd.y_max - bnd.y_min) + (w - bnd.y_min))
                from by
                  rw [show z - x0 = (z - (x0 + 1)) + 1 from by omega, Nat.succ_mul]
                  ring]
        · rw [if_neg hzw]
          rw [if_neg (by omega : ¬(x0 + 1 ≤ z ∧ z < x0 + 1 + n ∧ bnd.y_min ≤ w
              ∧ w < bnd.y_min + (bnd.y_max - bnd.y_min)))] at hp
          rw [hp]
          have hc := hcolpt z w
          rw [if_neg (by omega : ¬(z = x0 ∧ bnd.y_min ≤ w
              ∧ w < bnd.y_min + (bnd.y_max - bnd.y_min)))] at hc
          exact hc

/-! ## C2: per-pixel sampling coordinates of stage 2 -/

/-- C2 counterexample: on the constant source image (1, 2, 3, 4) with
the default configuration (brightness addition 3), the green channel
written by stage 2 at (0, 0) is the brightened BLUE channel of the
source, brighten_pixels 3 3 = 6, and differs from the brightened green
channel brighten_pixels 2 3 = 5 that the claim prescribes (on this
constant image every source pixel has green 2, so the claimed value is
5 whatever coordinate the sample comes from). -/
theorem c2_counterexample :
    cEx.img 0 0 = ⟨1, 2, 3, 4⟩
      ∧ Option.map (fun r => (r.1.buffer 0 0).g)
          (random_brightening cEx gEx cfgEx) = some (brighten_pixels 3 3)
      ∧ brighten_pixels 3 3 ≠ brighten_pixels 2 3 := by
  refine ⟨rfl, ?_, ?_⟩ <;> decide

/-- C2 amended: random_brightening always succeeds, consumes exactly
four stream draws per pixel in raster order, and at every coordinate of
the image writes the pixel s2Pix built from the four draws of that
pixel: the green channel written at (x, y) is the BLUE channel of the
source pixel at (modified_pixel(x + lb, offset_x, x_max),
modified_pixel(0, y, y_max)) and the blue channel written is the GREEN
channel of the source pixel at (modified_pixel(x, lg, x_max),
modified_pixel(0, y, y_max)), each passed through the brightening
function, where lg, lb and offset_x are the per-pixel redrawn values
named in s2Pix — the source's let (b, g) tuple binding routes each
sample to the opposite output channel, the reverse of the claimed
assignment. -/
theorem c2_stage2_sampling (c : Corrupter) (g : RNG) (cfg : CLI)
    (hx0 : c.bounds.x_min = 0) (hy0 : c.bounds.y_min = 0) :
    ∃ r, random_brightening c g cfg = some r
      ∧ r.2 = ⟨g.draws, g.idx + 4 * ((c.bounds.x_max - c.bounds.x_min)
          * (c.bounds.y_max - c.bounds.y_min))⟩
      ∧ ∀ x y, x < c.bounds.x_max → y < c.bounds.y_max →
          r.1.buffer x y = s2Pix c.img c.bounds cfg g.draws
            (g.idx + 4 * (x * c.bounds.y_max + y)) x y := by
  obtain ⟨buf', hfold, hpt⟩ := s2_rows c.img c.bounds cfg (by omega)
    (c.bounds.x_max - c.bounds.x_min) c.bounds.x_min (by omega)
    c.buffer g.draws g.idx
  refine ⟨({ c with buffer := buf' },
      ⟨g.draws, g.idx + 4 * ((c.bounds.x_max - c.bounds.x_min)
        * (c.bounds.y_max - c.bounds.y_min))⟩), ?_, rfl, ?_⟩
  · calc random_brightening c g cfg
        = (List.foldlM (brightening_step c.img c.bounds cfg)
            (c.buffer, (⟨g.draws, g.idx⟩ : RNG))
            ((List.range' c.bounds.x_min (c.bounds.x_max - c.bounds.x_min)).flatMap
              (fun x => (List.range' c.bounds.y_min
                  (c.bounds.y_max - c.bounds.y_min)).map (fun y => (x, y))))).bind
            (fun st => some (({ c with buffer := st.1 } : Corrupter), st.2)) := rfl
      _ = _ := by
            rw [hfold]
            rfl
  · intro x y hx hy
    have hp := hpt x y
    rw [if_pos (by omega)] at hp
    show buf' x y = _
    rw [hp,
      show (g.idx + 4 * ((x - c.bounds.x_min) * (c.bounds.y_max - c.bounds.y_min)
            + (y - c.bounds.y_min)))
          = (g.idx + 4 * (x * c.bounds.y_max + y)) from by
        rw [hx0, hy0, Nat.sub_zero, Nat.sub_zero, Nat.sub_zero]]

theorem c2_witness :
    ∃ r, random_brightening cEx gEx cfgEx = some r
      ∧ r.2 = ⟨gEx.draws, gEx.idx + 4 * ((cEx.bounds.x_max - cEx.bounds.x_min)
          * (cEx.bounds.y_max - cEx.bounds.y_min))⟩
      ∧ r.1.buffer 1 1 = s2Pix cEx.img cEx.bounds cfgEx gEx.draws
          (gEx.idx + 4 * (1 * cEx.bounds.y_max + 1)) 1 1 := by
  obtain ⟨r, h1, h2, h3⟩ := c2_stage2_sampling cEx gEx cfgEx rfl rfl
  exact ⟨r, h1, h2, h3 1 1 (by decide) (by decide)⟩

/-! ## Stage 1 ignores the buffer contents -/

/-- Binding the same option into pointwise equal continuations gives
equal results. -/
theorem opt_bind_congr {α β : Type} {e : Option α} {f g : α → Option β}
    (h : ∀ a, f a = g a) : e >>= f = e >>= g := by
  cases e with
  | none => rfl
  | some a => exact h a

/-- Mapping over a bind pushes the map into the continuation. -/
theorem opt_map_bind {α β γ : Type} (f : β → γ) (e : Option α) (k : α → Option β) :
    Option.map f (e >>= k) = e >>= (fun a => Option.map f (k a)) := by
  cases e <;> rfl

/-- Control, generator and coordinate computation of the stage-1 body,
separated from the buffer write: everything dissolve_step does except
the put_pixel, returning the new block state, the advanced generator
and the source coordinate that would be read. -/
def dissolve_core (bnd : Bounds) (cfg : CLI) (lo : Int) (sm yset : Nat)
    (g : RNG) (xy : Nat × Nat) : Option (Int × Nat × Nat × RNG × (Nat × Nat)) := do
  let (hit, g1) ← gen_ratio g cfg.block_height bnd.x_max
  let (lo2, stride, yset2, g2) :=
    if hit then
      let p := offset_i64 g1 (cfg.block_offset : Int)
      (p.1, cfg.stride_magnitude, xy.2, p.2)
    else (lo, sm, yset, g1)
  let stride_offset : Int := ((stride * ((xy.2 + U32 - yset2) % U32)) % U32 : Nat)
  let pmx := offset_i64 g2 cfg.magnitude
  let offset_x : Int := wrapI64 (wrapI64 (pmx.1 + lo2) + stride_offset)
  let pmy := offset_i64 pmx.2 cfg.magnitude
  let sx ← modified_pixel xy.1 (i64_to_u32_sat offset_x) bnd.x_max
  let sy ← modified_pixel xy.2 (i64_to_u32_sat pmy.1) bnd.y_max
  some (lo2, stride, yset2, pmy.2, (sx, sy))

/-- dissolve_step factors through dissolve_core: the buffer influences
neither the control flow nor the generator, only the single put_pixel
write. -/
theorem dissolve_step_eq_core (img : Image) (bnd : Bounds) (cfg : CLI)
    (lo : Int) (sm ys : Nat) (b : Image) (g : RNG) (xy : Nat × Nat) :
    dissolve_step img bnd cfg ⟨lo, sm, ys, b, g⟩ xy
      = Option.map (fun r => (⟨r.1, r.2.1, r.2.2.1,
          put_pixel b xy.1 xy.2 (img r.2.2.2.2.1 r.2.2.2.2.2),
          r.2.2.2.1⟩ : S1State))
          (dissolve_core bnd cfg lo sm ys g xy) := by
  unfold dissolve_step dissolve_core
  dsimp only
  rw [opt_map_bind]
  refine opt_bind_congr ?_
  intro p
  obtain ⟨hit, g1⟩ := p
  dsimp only
  rw [opt_map_bind]
  refine opt_bind_congr ?_
  intro sx
  rw [opt_map_bind]
  refine opt_bind_congr ?_
  intro sy
  rfl

/-- Running stage 1 from the same block state and generator over two
different buffers: either both runs panic, or both succeed with the
same final block state and generator. -/
theorem dissolve_fold_par (img : Image) (bnd : Bounds) (cfg : CLI) :
    ∀ (l : List (Nat × Nat)) (lo : Int) (sm ys : Nat) (g : RNG) (b1 b2 : Image),
      (List.foldlM (dissolve_step img bnd cfg) ⟨lo, sm, ys, b1, g⟩ l = none
        ∧ List.foldlM (dissolve_step img bnd cfg) ⟨lo, sm, ys, b2, g⟩ l = none)
      ∨ ∃ lo' sm' ys' g' bf1 bf2,
          List.foldlM (dissolve_step img bnd cfg) ⟨lo, sm, ys, b1, g⟩ l
            = some ⟨lo', sm', ys', bf1, g'⟩
          ∧ List.foldlM (dissolve_step img bnd cfg) ⟨lo, sm, ys, b2, g⟩ l
            = some ⟨lo', sm', ys', bf2, g'⟩
  | [], lo, sm, ys, g, b1, b2 =>
      Or.inr ⟨lo, sm, ys, g, b1, b2, rfl, rfl⟩
  | xy :: l, lo, sm, ys, g, b1, b2 => by
      cases hc : dissolve_core bnd cfg lo sm ys g xy with
      | none =>
          left
          constructor <;>
            (rw [List.foldlM_cons, dissolve_step_eq_core, hc]; rfl)
      | some r =>
          have h1 : dissolve_step img bnd cfg ⟨lo, sm, ys, b1, g⟩ xy
              = some ⟨r.1, r.2.1, r.2.2.1,
                  put_pixel b1 xy.1 xy.2 (img r.2.2.2.2.1 r.2.2.2.2.2),
                  r.2.2.2.1⟩ := by
            rw [dissolve_step_eq_core, hc]
            rfl
          have h2 : dissolve_step img bnd cfg ⟨lo, sm, ys, b2, g⟩ xy
              = some ⟨r.1, r.2.1, r.2.2.1,
                  put_pixel b2 xy.1 xy.2 (img r.2.2.2.2.1 r.2.2.2.2.2),
                  r.2.2.2.1⟩ := by
            rw [dissolve_step_eq_core, hc]
            rfl
          cases dissolve_fold_par img bnd cfg l r.1 r.2.1 r.2.2.1 r.2.2.2.1
              (put_pixel b1 xy.1 xy.2 (img r.2.2.2.2.1 r.2.2.2.2.2))
              (put_pixel b2 xy.1 xy.2 (img r.2.2.2.2.1 r.2.2.2.2.2)) with
          | inl hn =>
              left
              constructor
              · rw [List.foldlM_cons, h1]
                exact hn.1
              · rw [List.foldlM_cons, h2]
                exact hn.2
          | inr hs =>
              obtain ⟨lo', sm', ys', g', bf1, bf2, hf1, hf2⟩ := hs
              right
              refine ⟨lo', sm', ys', g', bf1, bf2, ?_, ?_⟩
              · rw [List.foldlM_cons, h1]
                exact hf1
              · rw [List.foldlM_cons, h2]
                exact hf2

/-- Whole-stage closed form of random_brightening on a literal
Corrupter: the stage always succeeds, advances the generator by four
draws per pixel, writes s2Pix (a function of the source image, the
configuration and the draw stream alone) at every scanned coordinate
and leaves the rest of the buffer untouched. -/
theorem stage2_closed (bnd : Bounds) (img : Image) (cfg : CLI) (g : RNG)
    (b : Image) (hxm : bnd.x_min ≤ bnd.x_max) (hym : bnd.y_min ≤ bnd.y_max) :
    ∃ buf', random_brightening ⟨bnd, img, b⟩ g cfg
        = some (⟨bnd, img, buf'⟩,
            ⟨g.draws, g.idx + 4 * ((bnd.x_max - bnd.x_min)
              * (bnd.y_max - bnd.y_min))⟩)
      ∧ ∀ z w, buf' z w =
          if bnd.x_min ≤ z ∧ z < bnd.x_min + (bnd.x_max - bnd.x_min)
              ∧ bnd.y_min ≤ w ∧ w < bnd.y_min + (bnd.y_max - bnd.y_min)
          then s2Pix img bnd cfg g.draws
            (g.idx + 4 * ((z - bnd.x_min) * (bnd.y_max - bnd.y_min)
              + (w - bnd.y_min))) z w
          else b z w := by
  obtain ⟨buf', hfold, hpt⟩ := s2_rows img bnd cfg hym
    (bnd.x_max - bnd.x_min) bnd.x_min (by omega) b g.draws g.idx
  refine ⟨buf', ?_, hpt⟩
  calc random_brightening ⟨bnd, img, b⟩ g cfg
      = (List.foldlM (brightening_step img bnd cfg) (b, (⟨g.draws, g.idx⟩ : RNG))
          ((List.range' bnd.x_min (bnd.x_max - bnd.x_min)).flatMap
            (fun x => (List.range' bnd.y_min (bnd.y_max - bnd.y_min)).map
              (fun y => (x, y))))).bind
          (fun st => some ((⟨bnd, img, st.1⟩ : Corrupter), st.2)) := rfl
    _ = _ := by
          rw [hfold]
          rfl

/-! ## C8: stages 2 and 3 read only the source image -/

/-- C8: running stages 2 and 3 in sequence from two arbitrary buffer
states (with the same source image, configuration and generator) always
succeeds, ends with the same generator, and writes at every coordinate
of the image the same value — an explicit function of the source image,
the configuration and the draw stream alone (s2Pix then chromaPix).
The buffer contents produced by earlier stages therefore influence the
final buffer only through the generator state they left behind. -/
theorem c8_stages23_read_source_only (bnd : Bounds) (img : Image) (cfg : CLI)
    (g : RNG) (b1 b2 : Image)
    (hxm : bnd.x_min ≤ bnd.x_max) (hym : bnd.y_min ≤ bnd.y_max) :
    ∃ r1 r2,
      (random_brightening ⟨bnd, img, b1⟩ g cfg).bind
          (fun s => chromatic_abberations s.1 s.2 cfg) = some r1
      ∧ (random_brightening ⟨bnd, img, b2⟩ g cfg).bind
          (fun s => chromatic_abberations s.1 s.2 cfg) = some r2
      ∧ r1.2 = r2.2
      ∧ ∀ x y, bnd.x_min ≤ x → x < bnd.x_max → bnd.y_min ≤ y → y < bnd.y_max →
          r1.1.buffer x y = chromaPix img bnd cfg (stage3_offset_x cfg
              ⟨g.draws, g.idx + 4 * ((bnd.x_max - bnd.x_min)
                * (bnd.y_max - bnd.y_min))⟩) x y
          ∧ r2.1.buffer x y = chromaPix img bnd cfg (stage3_offset_x cfg
              ⟨g.draws, g.idx + 4 * ((bnd.x_max - bnd.x_min)
                * (bnd.y_max - bnd.y_min))⟩) x y := by
  obtain ⟨buf1, h1, hpt1⟩ := stage2_closed bnd img cfg g b1 hxm hym
  obtain ⟨buf2, h2, hpt2⟩ := stage2_closed bnd img cfg g b2 hxm hym
  obtain ⟨bufc1, hc1, hcpt1⟩ := chromatic_abberations_spec ⟨bnd, img, buf1⟩
    ⟨g.draws, g.idx + 4 * ((bnd.x_max - bnd.x_min) * (bnd.y_max - bnd.y_min))⟩ cfg
  obtain ⟨bufc2, hc2, hcpt2⟩ := chromatic_abberations_spec ⟨bnd, img, buf2⟩
    ⟨g.draws, g.idx + 4 * ((bnd.x_max - bnd.x_min) * (bnd.y_max - bnd.y_min))⟩ cfg
  dsimp only at hc1 hcpt1 hc2 hcpt2
  refine ⟨(⟨bnd, img, bufc1⟩,
      ⟨g.draws, g.idx + 4 * ((bnd.x_max - bnd.x_min)
        * (bnd.y_max - bnd.y_min)) + 1⟩),
    (⟨bnd, img, bufc2⟩,
      ⟨g.draws, g.idx + 4 * ((bnd.x_max - bnd.x_min)
        * (bnd.y_max - bnd.y_min)) + 1⟩), ?_, ?_, rfl, ?_⟩
  · rw [h1]
    exact hc1
  · rw [h2]
    exact hc2
  · intro x y hx1 hx2 hy1 hy2
    constructor
    · show bufc1 x y = _
      have hcp := hcpt1 x y
      rw [if_pos ⟨hx1, hx2, hy1, hy2⟩] at hcp
      exact hcp
    · show bufc2 x y = _
      have hcp := hcpt2 x y
      rw [if_pos ⟨hx1, hx2, hy1, hy2⟩] at hcp
      exact hcp

/-- Rectangle of the 2 by 2 test image. -/
def bndEx : Bounds := ⟨0, 0, 2, 2⟩

/-- Zero-filled buffer. -/
def bZero : Image := fun _ _ => ⟨0, 0, 0, 0⟩

theorem c8_witness :
    ∃ r1 r2,
      (random_brightening ⟨bndEx, imgEx, bZero⟩ gEx cfgEx).bind
          (fun s => chromatic_abberations s.1 s.2 cfgEx) = some r1
      ∧ (random_brightening ⟨bndEx, imgEx, imgEx⟩ gEx cfgEx).bind
          (fun s => chromatic_abberations s.1 s.2 cfgEx) = some r2
      ∧ r1.2 = r2.2
      ∧ r1.1.buffer 0 0 = chromaPix imgEx bndEx cfgEx (stage3_offset_x cfgEx
          ⟨gEx.draws, gEx.idx + 4 * ((bndEx.x_max - bndEx.x_min)
            * (bndEx.y_max - bndEx.y_min))⟩) 0 0 := by
  obtain ⟨r1, r2, h1, h2, h3, h4⟩ :=
    c8_stages23_read_source_only bndEx imgEx cfgEx gEx bZero imgEx
      (by decide) (by decide)
  exact ⟨r1, r2, h1, h2, h3,
    (h4 0 0 (by decide) (by decide) (by decide) (by decide)).1⟩

/-! ## C9: determinism of the full pipeline -/

/-- C9: two runs of the three-stage pipeline over the same source
image, configuration and draw stream behave identically — whatever the
initial buffer contents, either both runs panic, or both succeed with
the same final generator and byte-identical buffers at every coordinate
of the image.  The output is therefore a function of the source image,
the configuration and the draw sequence alone. -/
theorem c9_pipeline_deterministic (bnd : Bounds) (img : Image) (cfg : CLI)
    (g : RNG) (b1 b2 : Image)
    (hxm : bnd.x_min ≤ bnd.x_max) (hym : bnd.y_min ≤ bnd.y_max) :
    (pipeline3 ⟨bnd, img, b1⟩ g cfg = none ∧ pipeline3 ⟨bnd, img, b2⟩ g cfg = none)
    ∨ ∃ r1 r2, pipeline3 ⟨bnd, img, b1⟩ g cfg = some r1
        ∧ pipeline3 ⟨bnd, img, b2⟩ g cfg = some r2
        ∧ r1.2 = r2.2
        ∧ ∀ x y, bnd.x_min ≤ x → x < bnd.x_max → bnd.y_min ≤ y → y < bnd.y_max →
            r1.1.buffer x y = r2.1.buffer x y := by
  cases dissolve_fold_par img bnd cfg (coords bnd) 0 0 0 g b1 b2 with
  | inl hn =>
      left
      constructor
      · calc pipeline3 ⟨bnd, img, b1⟩ g cfg
            = ((List.foldlM (dissolve_step img bnd cfg) (⟨0, 0, 0, b1, g⟩ : S1State)
                (coords bnd)).bind
                (fun st => some ((⟨bnd, img, st.buffer⟩ : Corrupter), st.rng))).bind
                (fun s1 => (random_brightening s1.1 s1.2 cfg).bind
                  (fun s2 => chromatic_abberations s2.1 s2.2 cfg)) := rfl
          _ = none := by
                rw [hn.1]
                rfl
      · calc pipeline3 ⟨bnd, img, b2⟩ g cfg
            = ((List.foldlM (dissolve_step img bnd cfg) (⟨0, 0, 0, b2, g⟩ : S1State)
                (coords bnd)).bind
                (fun st => some ((⟨bnd, img, st.buffer⟩ : Corrupter), st.rng))).bind
                (fun s1 => (random_brightening s1.1 s1.2 cfg).bind
                  (fun s2 => chromatic_abberations s2.1 s2.2 cfg)) := rfl
          _ = none := by
                rw [hn.2]
                rfl
  | inr hs =>
      obtain ⟨lo', sm', ys', g', bf1, bf2, hf1, hf2⟩ := hs
      obtain ⟨buf1, h21, hpt1⟩ := stage2_closed bnd img cfg g' bf1 hxm hym
      obtain ⟨buf2, h22, hpt2⟩ := stage2_closed bnd img cfg g' bf2 hxm hym
      obtain ⟨bufc1, hc1, hcpt1⟩ := chromatic_abberations_spec ⟨bnd, img, buf1⟩
        ⟨g'.draws, g'.idx + 4 * ((bnd.x_max - bnd.x_min)
          * (bnd.y_max - bnd.y_min))⟩ cfg
      obtain ⟨bufc2, hc2, hcpt2⟩ := chromatic_abberations_spec ⟨bnd, img, buf2⟩
        ⟨g'.draws, g'.idx + 4 * ((bnd.x_max - bnd.x_min)
          * (bnd.y_max - bnd.y_min))⟩ cfg
      dsimp only at hc1 hcpt1 hc2 hcpt2
      right
      refine ⟨(⟨bnd, img, bufc1⟩,
          ⟨g'.draws, g'.idx + 4 * ((bnd.x_max - bnd.x_min)
            * (bnd.y_max - bnd.y_min)) + 1⟩),
        (⟨bnd, img, bufc2⟩,
          ⟨g'.draws, g'.idx + 4 * ((bnd.x_max - bnd.x_min)
            * (bnd.y_max - bnd.y_min)) + 1⟩), ?_, ?_, rfl, ?_⟩
      · calc pipeline3 ⟨bnd, img, b1⟩ g cfg
            = ((List.foldlM (dissolve_step img bnd cfg) (⟨0, 0, 0, b1, g⟩ : S1State)
                (coords bnd)).bind
                (fun st => some ((⟨bnd, img, st.buffer⟩ : Corrupter), st.rng))).bind
                (fun s1 => (random_brightening s1.1 s1.2 cfg).bind
                  (fun s2 => chromatic_abberations s2.1 s2.2 cfg)) := rfl
          _ = _ := by
                rw [hf1]
                show (random_brightening ⟨bnd, img, bf1⟩ g' cfg).bind
                    (fun s2 => chromatic_abberations s2.1 s2.2 cfg) = _
                rw [h21]
                exact hc1
      · calc pipeline3 ⟨bnd, img, b2⟩ g cfg
            = ((List.foldlM (dissolve_step img bnd cfg) (⟨0, 0, 0, b2, g⟩ : S1State)
                (coords bnd)).bind
                (fun st => some ((⟨bnd, img, st.buffer⟩ : Corrupter), st.rng))).bind
                (fun s1 => (random_brightening s1.1 s1.2 cfg).bind
                  (fun s2 => chromatic_abberations s2.1 s2.2 cfg)) := rfl
          _ = _ := by
                rw [hf2]
                show (random_brightening ⟨bnd, img, bf2⟩ g' cfg).bind
                    (fun s2 => chromatic_abberations s2.1 s2.2 cfg) = _
                rw [h22]
                exact hc2
      · intro x y hx1 hx2 hy1 hy2
        show bufc1 x y = bufc2 x y
        have hp1 := hcpt1 x y
        have hp2 := hcpt2 x y
        rw [if_pos ⟨hx1, hx2, hy1, hy2⟩] at hp1 hp2
        rw [hp1, hp2]

theorem c9_witness :
    ∃ r1 r2, pipeline3 ⟨bndEx, imgEx, bZero⟩ gEx cfgEx1 = some r1
      ∧ pipeline3 ⟨bndEx, imgEx, imgEx⟩ gEx cfgEx1 = some r2
      ∧ r1.2 = r2.2 ∧ r1.1.buffer 0 0 = r2.1.buffer 0 0 := by
  cases c9_pipeline_deterministic bndEx imgEx cfgEx1 gEx bZero imgEx
      (by decide) (by decide) with
  | inl hn =>
      have hS : (pipeline3 (⟨bndEx, imgEx, bZero⟩ : Corrupter) gEx cfgEx1).isSome := rfl
      rw [hn.1] at hS
      exact Bool.noConfusion hS
  | inr hs =>
      obtain ⟨r1, r2, h1, h2, h3, h4⟩ := hs
      exact ⟨r1, r2, h1, h2, h3,
        h4 0 0 (by decide) (by decide) (by decide) (by decide)⟩

end Cruster
